import Mathlib

/-!
Verification of the ReSync artifact-detection core against its design
specification.

The development shallowly embeds the three source components over `List ℚ`:

* `find_external_sync_artifact` (src/scripts/functions/find_artifacts.py, lines 9-66)
* `find_LFP_sync_artifact`      (src/scripts/functions/find_artifacts.py, lines 70-211)
* `check_timeshift`             (src/scripts/timeshift.py, lines 11-103; only the
  drift computation, persistence and advisory — plotting and the interactive
  sample selection are external collaborators, out of scope per the spec)

Python exceptions (IndexError from unguarded `[0]` / `[-1]` accesses, ValueError
from `max`/`min`/`np.ptp` on empty data, the unbound `art_time_BIP` NameError)
are modelled as `Option.none`.  Machine floats are modelled as exact rationals.
Loops are embedded with an explicit fuel argument that dominates the source
loop's iteration count, so every definition is executable.
-/

/-- Python built-in `max` over a non-empty sequence; `0` stands in for the
ValueError raised on an empty sequence (callers guard emptiness). -/
def maxQ : List ℚ → ℚ
  | [] => 0
  | x :: xs => xs.foldl max x

/-- Python built-in `min` over a non-empty sequence; `0` stands in for the
ValueError raised on an empty sequence (callers guard emptiness). -/
def minQ : List ℚ → ℚ
  | [] => 0
  | x :: xs => xs.foldl min x

/-- `np.ptp`: peak-to-peak, max minus min. -/
def ptpQ (l : List ℚ) : ℚ := maxQ l - minQ l

/-- Python indexing with negative-index wraparound (`d[-1]` is the last
element).  Only exercised in-range by the embedded code. -/
def pyGet (l : List ℚ) (i : ℤ) : ℚ :=
  if i < 0 then l.getD ((l.length : ℤ) + i).toNat 0 else l.getD i.toNat 0

/-- Python slicing `d[a:b]` with negative-index wraparound and clamping. -/
def pySlice (d : List ℚ) (a b : ℤ) : List ℚ :=
  let a2 : ℕ := (if a < 0 then (d.length : ℤ) + a else a).toNat
  let b2 : ℕ := (if b < 0 then (d.length : ℤ) + b else b).toNat
  (d.take b2).drop a2

/-- Polarity check of `find_external_sync_artifact` (find_artifacts.py lines
43-46): compare `abs(max(data[:-1000]))` with `abs(min(data[:-1000]))` and
multiply the signal by `-1` when the positive magnitude is larger.  `none`
models the ValueError of `max([])` when the signal has at most 1000 samples. -/
def normalizeExternal (data : List ℚ) : Option (List ℚ) :=
  let w := data.take (data.length - 1000)
  if w = [] then none
  else if |maxQ w| > |minQ w| then some (data.map (fun v => -v))
  else some data

/-- Scan condition of the external detector (find_artifacts.py lines 58-62):
below threshold, lower than the next sample, lower than the "previous" sample
(`data[q-1]`, which for `q = 0` is Python's `data[-1]`, the last sample).
The threshold is `-1.5 * np.ptp(data[:2*sf])` (line 49). -/
def externalCondD (d : List ℚ) (sf : ℕ) (q : ℕ) : Bool :=
  decide (d.getD q 0 ≤ -(3/2) * ptpQ (d.take (2 * sf))) &&
  decide (d.getD q 0 < d.getD (q + 1) 0) &&
  decide (d.getD q 0 < pyGet d ((q : ℤ) - 1))

/-- Index scan of `find_external_sync_artifact` (find_artifacts.py lines
57-64): first `q` in `range(start_index, len(data) - 2)` satisfying the
condition.  `none` models both the ValueError on an empty baseline slice
(`sf = 0`) and the unbound `art_time_BIP` when the scan finds nothing. -/
def externalArtifactIdx (data : List ℚ) (sf start : ℕ) : Option ℕ :=
  match normalizeExternal data with
  | none => none
  | some d =>
    if d.take (2 * sf) = [] then none
    else (List.range' start (d.length - 2 - start)).find? (externalCondD d sf)

/-- `find_external_sync_artifact` (find_artifacts.py lines 9-66): the artifact
onset time `q / sf_external`. -/
def find_external_sync_artifact (data : List ℚ) (sf start : ℕ) : Option ℚ :=
  (externalArtifactIdx data sf start).map (fun q => (q : ℚ) / (sf : ℚ))

/-- `np.where(l > c)[0][0]`: the first index whose value exceeds `c`.
`none` models the IndexError of `[0]` on an empty index array. -/
def firstIdxGt (l : List ℚ) (c : ℚ) : Option ℕ :=
  ((List.range l.length).filter (fun i => decide (c < l.getD i 0))).head?

/-- `np.where(l <= c)[0][-1]`: the last index whose value is at most `c`.
`none` models the IndexError of `[-1]` on an empty index array. -/
def lastIdxLe (l : List ℚ) (c : ℚ) : Option ℕ :=
  ((List.range l.length).filter (fun i => decide (l.getD i 0 ≤ c))).getLast?

/-- `np.percentile(l, p)` with the default linear interpolation between the
order statistics at fractional rank `(n - 1) * p / 100`. -/
def percentileQ (l : List ℚ) (p : ℚ) : ℚ :=
  let s := List.insertionSort (fun a b : ℚ => a ≤ b) l
  let h : ℚ := ((l.length : ℚ) - 1) * p / 100
  let lo := (⌊h⌋).toNat
  let hi := (⌈h⌉).toNat
  s.getD lo 0 + (h - (lo : ℚ)) * (s.getD hi 0 - s.getD lo 0)

/-- `np.median`: middle order statistic, or the mean of the two middle ones. -/
def medianQ (l : List ℚ) : ℚ :=
  let s := List.insertionSort (fun a b : ℚ => a ≤ b) l
  if l.length % 2 = 1 then s.getD (l.length / 2) 0
  else (s.getD (l.length / 2 - 1) 0 + s.getD (l.length / 2) 0) / 2

/-- Threshold branch of `find_LFP_sync_artifact` (find_artifacts.py lines
106-117), returning the detected sample index: threshold = peak-to-peak of the
first `2*sf` samples, `over` = first index where `|data|` exceeds it, result =
last index before `over` whose `|data|` value is at most the 95th percentile
of the prefix.  `none` models the ValueError on an empty baseline slice and
the IndexErrors of `[0]`/`[-1]` on empty index arrays. -/
def threshStimIdx (data : List ℚ) (sf : ℕ) : Option ℕ :=
  if data.take (2 * sf) = [] then none
  else
    let absd := data.map (fun v => |v|)
    match firstIdxGt absd (ptpQ (data.take (2 * sf))) with
    | none => none
    | some over =>
      let pre := absd.take over
      if pre = [] then none
      else lastIdxLe pre (percentileQ pre 95)

/-- Kernel 1 of `find_LFP_sync_artifact` (find_artifacts.py line 125):
the 2-tap step template `[1, -1]`. -/
def kernel1 : List ℚ := [1, -1]

/-- Kernel 2 of `find_LFP_sync_artifact` (find_artifacts.py line 126):
`[1, 0, -1]` followed by `np.linspace(-1, 0, 20)`, 23 taps in total. -/
def kernel2 : List ℚ := [1, 0, -1] ++ (List.range 20).map (fun i => -1 + (i : ℚ) / 19)

/-- Dot product `ker @ window` of two equal-length vectors. -/
def dotQ (a b : List ℚ) : ℚ := (List.zipWith (fun x y => x * y) a b).sum

/-- Raw matched-filter response (find_artifacts.py lines 132-138): one dot
product `ker @ data[i : i+len(ker)]` per `i` in
`np.arange(0, len(data) - len(ker))`. -/
def rawRes (ker data : List ℚ) : List ℚ :=
  (List.range (data.length - ker.length)).map
    (fun i => dotQ ker ((data.drop i).take ker.length))

/-- Normalized response (find_artifacts.py line 141): `res / max(res)`.
Rational division by zero yields `0` where numpy would produce non-finite
values with a warning; no claim depends on the `max(res) = 0` case. -/
def normRes (ker data : List ℚ) : List ℚ :=
  (rawRes ker data).map (fun v => v / maxQ (rawRes ker data))

/-- Plateau scan of scipy `_local_maxima_1d`: starting from `j`, advance while
`j < len(x) - 1` and `x[j] = x[i]`; returns the first differing index (or the
last index).  `fuel` dominates the iteration count; callers pass `x.length`. -/
def findAhead (x : List ℚ) (i : ℕ) : ℕ → ℕ → ℕ
  | 0, j => j
  | fuel + 1, j =>
    if j + 1 < x.length ∧ x.getD j 0 = x.getD i 0 then findAhead x i fuel (j + 1)
    else j

/-- Main loop of scipy `_local_maxima_1d`: for `i` from 1 while `i < len - 1`,
a sample strictly greater than its left neighbour that is followed (after a
possible plateau) by a strictly smaller sample yields the plateau midpoint
`(left + right) / 2`; the scan resumes after the plateau. -/
def localMaximaAux (x : List ℚ) : ℕ → ℕ → List ℕ
  | 0, _ => []
  | fuel + 1, i =>
    if i + 1 < x.length then
      if x.getD (i - 1) 0 < x.getD i 0 then
        let ia := findAhead x i x.length (i + 1)
        if x.getD ia 0 < x.getD i 0 then
          (i + (ia - 1)) / 2 :: localMaximaAux x fuel (ia + 1)
        else localMaximaAux x fuel (i + 1)
      else localMaximaAux x fuel (i + 1)
    else []

/-- scipy `_local_maxima_1d`: all interior local-maximum (plateau midpoint)
indices, in increasing order. -/
def localMaxima (x : List ℚ) : List ℕ := localMaximaAux x x.length 1

/-- Left inner while-loop of scipy `_select_by_peak_distance`: walking down
from index `k - 1`, clear `keep` while the peak is closer than `dist` to the
current peak position `pj`. -/
def clearLeft (peaks : List ℕ) (dist : ℕ) (pj : ℕ) : ℕ → List Bool → List Bool
  | 0, keep => keep
  | k + 1, keep =>
    if (pj : ℤ) - (peaks.getD k 0 : ℤ) < (dist : ℤ) then
      clearLeft peaks dist pj k (keep.set k false)
    else keep

/-- Right inner while-loop of scipy `_select_by_peak_distance`: walking up
from index `k`, clear `keep` while the peak is closer than `dist` to the
current peak position `pj`.  `fuel` dominates the iteration count. -/
def clearRight (peaks : List ℕ) (dist : ℕ) (pj : ℕ) : ℕ → ℕ → List Bool → List Bool
  | 0, _, keep => keep
  | fuel + 1, k, keep =>
    if k < peaks.length ∧ (peaks.getD k 0 : ℤ) - (pj : ℤ) < (dist : ℤ) then
      clearRight peaks dist pj fuel (k + 1) (keep.set k false)
    else keep

/-- Outer loop of scipy `_select_by_peak_distance`: process peak positions in
order of decreasing priority (height); a position already cleared is skipped,
otherwise its too-close neighbours on both sides are cleared. -/
def selByDistAux (peaks : List ℕ) (dist : ℕ) : List ℕ → List Bool → List Bool
  | [], keep => keep
  | j :: rest, keep =>
    if keep.getD j false then
      let pj := peaks.getD j 0
      let keep1 := clearLeft peaks dist pj j keep
      let keep2 := clearRight peaks dist pj peaks.length (j + 1) keep1
      selByDistAux peaks dist rest keep2
    else selByDistAux peaks dist rest keep

/-- scipy `_select_by_peak_distance`: keep-mask filtering of the peak list.
The processing order is by ascending height reversed (numpy argsort is not
stable on ties; a stable sort is used here, ties never arise in the concrete
inputs below). -/
def selByDist (peaks : List ℕ) (heights : List ℚ) (dist : ℕ) : List ℕ :=
  let order :=
    (List.insertionSort (fun a b : ℕ => heights.getD a 0 ≤ heights.getD b 0)
      (List.range peaks.length)).reverse
  let keep := selByDistAux peaks dist order (List.replicate peaks.length true)
  (peaks.zip keep).filterMap (fun pb => if pb.2 then some pb.1 else none)

/-- scipy `find_peaks` restricted to the `height` and `distance` conditions
used by `find_LFP_sync_artifact` (find_artifacts.py lines 149-150): local
maxima, filtered by `x[peak] >= height`, then by minimal peak distance. -/
def find_peaks (x : List ℚ) (height : ℚ) (distance : ℕ) : List ℕ :=
  let peaks := (localMaxima x).filter (fun p => decide (height ≤ x.getD p 0))
  selByDist peaks (peaks.map (fun p => x.getD p 0)) distance

/-- Positive-peak width loop (find_artifacts.py lines 172-176): from `i`,
advance and count while `res[r_i] > c`; `none` models the IndexError when the
walk leaves the array.  `fuel` dominates the iteration count; callers pass
`res.length + 1`. -/
def walkAbove (res : List ℚ) (c : ℚ) : ℕ → ℕ → Option ℕ
  | 0, _ => none
  | fuel + 1, i =>
    if i < res.length then
      if c < res.getD i 0 then (walkAbove res c fuel (i + 1)).map (fun w => w + 1)
      else some 0
    else none

/-- Negative-peak width loop (find_artifacts.py lines 177-181): from `i`,
advance and count while `res[r_i] < c`; `none` models the IndexError when the
walk leaves the array. -/
def walkBelow (res : List ℚ) (c : ℚ) : ℕ → ℕ → Option ℕ
  | 0, _ => none
  | fuel + 1, i =>
    if i < res.length then
      if res.getD i 0 < c then (walkBelow res c fuel (i + 1)).map (fun w => w + 1)
      else some 0
    else none

/-- Inversion decision of `find_LFP_sync_artifact` (find_artifacts.py lines
160-185) given the first positive-response peak `p0` and the first
negative-response peak `n0`: inverted when `n0 < p0`, except that when
`p0 - n0 < 50` the half-height widths are measured (walking while the
response stays beyond 30% of its extreme) and the inversion is revoked when
`width_pos > 2 * width_neg`.  `none` models the IndexError of a width walk
running off the response. -/
def lfpInversionFlag (res : List ℚ) (p0 n0 : ℕ) : Option Bool :=
  if n0 < p0 then
    if p0 - n0 < 50 then
      match walkAbove res (maxQ res * (3/10)) (res.length + 1) p0,
            walkBelow res (minQ res * (3/10)) (res.length + 1) n0 with
      | some wp, some wn => some (if 2 * wn < wp then false else true)
      | _, _ => none
    else some true
  else some false

/-- Peak-consistency filter of `find_LFP_sync_artifact` (find_artifacts.py
lines 194-207): per candidate the window `data[i-5 : i+5]`, its absolute
extreme, the median of those extremes, and the polarity test against
`±0.5 * median`; the result is the first surviving candidate.  `none` models
the ValueError of `max`/`min` on an empty window and the IndexError of
`stim_idx_all[0]` on an empty survivor list. -/
def consistencyFilter (data : List ℚ) (inv : Bool) (stim_idx : List ℕ) : Option ℕ :=
  let wins := stim_idx.map (fun i => pySlice data ((i : ℤ) - 5) ((i : ℤ) + 5))
  if wins.any (fun w => w.isEmpty) then none
  else
    let abs_heights := wins.map (fun w => maxQ (w.map (fun v => |v|)))
    let med := medianQ abs_heights
    let sel := wins.map (fun w =>
      if inv then decide (med * (1/2) < maxQ w) else decide (minQ w < med * (-(1/2))))
    match (stim_idx.zip sel).filterMap (fun ib => if ib.2 then some ib.1 else none) with
    | [] => none
    | s :: _ => some s

/-- Kernel branch of `find_LFP_sync_artifact` (find_artifacts.py lines
121-207), returning the detected response index.  `none` models: Python
`max` on an empty response; `np.max` on an empty slice in the
ratio-sanity-check when `sf = 0` (the line-145/153 ratio and console warning
have no effect on the returned value and are not modelled further); the
IndexError of `neg_idx[0]`/`pos_idx[0]` on empty peak arrays (line 161); a
width walk leaving the response; and the failures inside the consistency
filter. -/
def lfpKernelIdx (data : List ℚ) (sf : ℕ) (ker : List ℚ) : Option ℕ :=
  let raw := rawRes ker data
  if raw.isEmpty then none
  else if sf = 0 then none
  else
    let res := normRes ker data
    let pos_idx := find_peaks res (maxQ res * (3/10)) sf
    let neg_idx := find_peaks (res.map (fun v => -v)) (-(minQ res * (3/10))) sf
    match neg_idx, pos_idx with
    | n0 :: _, p0 :: _ =>
      (match lfpInversionFlag res p0 n0 with
       | none => none
       | some inv => consistencyFilter data inv (if inv then neg_idx else pos_idx))
    | _, _ => none

/-- `find_LFP_sync_artifact` (find_artifacts.py lines 70-211): dispatch on
the method string (the failed `assert` for any other string is modelled as
`none`) and conversion of the detected index to a time `stim_idx / sf_LFP`. -/
def find_LFP_sync_artifact (data : List ℚ) (sf : ℕ) (use_method : String) : Option ℚ :=
  if use_method = "thresh" then (threshStimIdx data sf).map (fun i => (i : ℚ) / (sf : ℚ))
  else if use_method = "1" then (lfpKernelIdx data sf kernel1).map (fun i => (i : ℚ) / (sf : ℚ))
  else if use_method = "2" then (lfpKernelIdx data sf kernel2).map (fun i => (i : ℚ) / (sf : ℚ))
  else none

/-- A per-session parameter store: a list of (session, key, value) records. -/
abbrev ParamStore := List (String × String × ℚ)

/-- Modelled from the spec: the parameter-persistence collaborator
`_update_and_save_params(key, value, session_ID, saving_path)` lives in
`utils.py`, which is not among the sources; per spec section 6 it records a
key/value pair in the per-session parameter store. -/
def updateAndSaveParams (key : String) (value : ℚ) (session_ID : String)
    (store : ParamStore) : ParamStore :=
  (session_ID, key, value) :: store

/-- Spec section 3: the TimeshiftRecord produced by one drift check. -/
structure TimeshiftRecord where
  t_lfp : ℚ
  t_external : ℚ
  drift_ms : ℚ
  advisory : Bool

/-- Drift-check core of `check_timeshift` (timeshift.py lines 86-103): the
two reference timestamps are inputs (obtained in the source from the
interactive selection collaborator); the drift is
`(t_external - t_lfp) * 1000`, persisted under "TIMESHIFT" together with the
reference duration under "REC DURATION FOR TIMESHIFT", and the dropped-samples
advisory fires when `|drift| > 100` without blocking the record. -/
def check_timeshift (session_ID : String)
    (last_artifact_lfp_x last_artifact_external_x : ℚ)
    (store : ParamStore) : TimeshiftRecord × ParamStore :=
  let timeshift_ms := (last_artifact_external_x - last_artifact_lfp_x) * 1000
  let store1 := updateAndSaveParams "TIMESHIFT" timeshift_ms session_ID store
  let store2 := updateAndSaveParams "REC DURATION FOR TIMESHIFT"
    last_artifact_external_x session_ID store1
  (⟨last_artifact_lfp_x, last_artifact_external_x, timeshift_ms,
    decide (100 < |timeshift_ms|)⟩, store2)

/-- Concrete signal: external channel whose only qualifying local minimum at a
positive index sits at 1002, while Python's `data[-1]` wraparound also fires
the scan condition at index 0. -/
def cexExternal : List ℚ := [-4, -2] ++ List.replicate 1000 0 ++ [-4, 0, 5]

/-- Concrete signal: external channel with a single downward pulse at index 3
and enough trailing samples for the polarity window. -/
def wExternal : List ℚ := [0, 2, 0, -10, 0] ++ List.replicate 1000 0

/-- Concrete signal: all-zero external channel, long enough for the polarity
window; the scan never finds a qualifying sample. -/
def zeroExternal : List ℚ := List.replicate 1002 0

/-- Concrete signal: intracranial channel whose kernel-1 response is strictly
increasing, so both peak lists are empty. -/
def noPeakLFP : List ℚ := [3, 2, 0, -3]

/-- Concrete signal: intracranial channel whose kernel-1 response is
`[0, 1, 0, -1, 0]` — one positive peak at 1, one negative peak at 3. -/
def cleanLFP : List ℚ := [0, 0, -1, -1, 0, 0, 0]

/-- Concrete signal: intracranial channel whose kernel-1 response
`[0, -1, 1, 1/2, 3/5]` keeps the narrow-case positive width walk above 30% of
the maximum all the way past the end of the response. -/
def walkOffLFP : List ℚ := [0, 0, 10, 0, -5, -11, -11]

/-- Concrete signal: intracranial channel for the threshold method, crossing
the baseline threshold only at its last sample. -/
def lateThreshLFP : List ℚ := [0, 0, 0, 5]

/-- Concrete signal: an upward-deflection (reversed-polarity) signal longer
than the polarity window. -/
def wFlip : List ℚ := [5, -1] ++ List.replicate 1000 0

/-- The polarity-normalized version of `wFlip`. -/
def wFlipN : List ℚ := wFlip.map (fun v => -v)


/-! ### Generic list lemmas -/

/-- An element produced by `head?` is a member. -/
theorem mem_of_head?_eq_some {α : Type} {l : List α} {a : α}
    (h : l.head? = some a) : a ∈ l := by
  cases l with
  | nil => simp at h
  | cons x xs =>
    simp only [List.head?_cons, Option.some.injEq] at h
    simp [h]

/-- An element produced by `getLast?` is a member. -/
theorem mem_of_getLast?_eq_some {α : Type} :
    ∀ {l : List α} {a : α}, l.getLast? = some a → a ∈ l := by
  intro l
  induction l with
  | nil => intro a h; simp at h
  | cons x xs ih =>
    intro a h
    cases xs with
    | nil =>
      simp only [List.getLast?_singleton, Option.some.injEq] at h
      simp [h]
    | cons y ys =>
      rw [List.getLast?_cons_cons] at h
      exact List.mem_cons_of_mem x (ih h)

/-- `find?` over `range'` returns exactly the least qualifying index. -/
theorem find?_range'_least (f : ℕ → Bool) :
    ∀ (n s q : ℕ), s ≤ q → q < s + n → f q = true →
      (∀ p, p < q → s ≤ p → f p = false) →
      (List.range' s n).find? f = some q := by
  intro n
  induction n with
  | zero => intro s q h1 h2 _ _; omega
  | succ m ih =>
    intro s q h1 h2 hq hmin
    rw [List.range'_succ]
    rcases Nat.eq_or_lt_of_le h1 with hs | hs
    · rw [hs]
      exact List.find?_cons_of_pos _ hq
    · have hfs : f s = false := hmin s hs (Nat.le_refl s)
      rw [List.find?_cons_of_neg _ (by simp [hfs])]
      exact ih (s + 1) q hs (by omega) hq (fun p hp hsp => hmin p hp (by omega))

/-- Every sample of an all-zero signal reads as zero. -/
theorem zeroExternal_getD (i : ℕ) : zeroExternal.getD i 0 = 0 := by
  simp only [zeroExternal, List.getD_eq_getElem?_getD, List.getElem?_replicate]
  split <;> simp

/-- Every Python read of an all-zero signal reads as zero. -/
theorem zeroExternal_pyGet (i : ℤ) : pyGet zeroExternal i = 0 := by
  unfold pyGet
  split <;> exact zeroExternal_getD _

/-! ### Lemmas on `maxQ`, `minQ` and polarity normalization -/

/-- Folding `max` over a negated list computes the negated `min`-fold. -/
theorem foldl_max_map_neg :
    ∀ (xs : List ℚ) (a : ℚ), (xs.map (fun v => -v)).foldl max (-a) = -(xs.foldl min a) := by
  intro xs
  induction xs with
  | nil => intro a; simp
  | cons x t ih =>
    intro a
    simp only [List.map_cons, List.foldl_cons]
    rw [max_neg_neg]
    exact ih (a ⊓ x)

/-- Folding `min` over a negated list computes the negated `max`-fold. -/
theorem foldl_min_map_neg :
    ∀ (xs : List ℚ) (a : ℚ), (xs.map (fun v => -v)).foldl min (-a) = -(xs.foldl max a) := by
  intro xs
  induction xs with
  | nil => intro a; simp
  | cons x t ih =>
    intro a
    simp only [List.map_cons, List.foldl_cons]
    rw [min_neg_neg]
    exact ih (a ⊔ x)

/-- `maxQ` of a negated list is the negated `minQ`. -/
theorem maxQ_map_neg (l : List ℚ) : maxQ (l.map (fun v => -v)) = -(minQ l) := by
  cases l with
  | nil => simp [maxQ, minQ]
  | cons x t =>
    simp only [List.map_cons, maxQ, minQ]
    exact foldl_max_map_neg t x

/-- `minQ` of a negated list is the negated `maxQ`. -/
theorem minQ_map_neg (l : List ℚ) : minQ (l.map (fun v => -v)) = -(maxQ l) := by
  cases l with
  | nil => simp [maxQ, minQ]
  | cons x t =>
    simp only [List.map_cons, maxQ, minQ]
    exact foldl_min_map_neg t x

/-- Polarity normalization keeps the signal length. -/
theorem normalizeExternal_length {data d : List ℚ}
    (h : normalizeExternal data = some d) : d.length = data.length := by
  simp only [normalizeExternal] at h
  split at h
  · exact absurd h (by simp)
  · split at h
    · rw [← Option.some.inj h, List.length_map]
    · rw [← Option.some.inj h]

/-- Polarity normalization returns the signal or its negation, and only under
the corresponding polarity comparison on the prefix window. -/
theorem normalizeExternal_cases {data d : List ℚ}
    (h : normalizeExternal data = some d) :
    data.take (data.length - 1000) ≠ [] ∧
      ((|maxQ (data.take (data.length - 1000))| > |minQ (data.take (data.length - 1000))| ∧
          d = data.map (fun v => -v)) ∨
        (¬ |maxQ (data.take (data.length - 1000))| > |minQ (data.take (data.length - 1000))| ∧
          d = data)) := by
  simp only [normalizeExternal] at h
  split at h
  next hw => exact absurd h (by simp)
  next hw =>
    refine ⟨hw, ?_⟩
    split at h
    next hflip => exact Or.inl ⟨hflip, (Option.some.inj h).symm⟩
    next hflip => exact Or.inr ⟨hflip, (Option.some.inj h).symm⟩

/-- Polarity normalization is idempotent: the output of a successful
normalization normalizes to itself. -/
theorem normalizeExternal_idem {x y : List ℚ} (h : normalizeExternal x = some y) :
    normalizeExternal y = some y := by
  obtain ⟨hw, hcase⟩ := normalizeExternal_cases h
  rcases hcase with ⟨hflip, hy⟩ | ⟨hflip, hy⟩
  · subst hy
    have hwy : (x.map (fun v => -v)).take ((x.map (fun v => -v)).length - 1000)
        = (x.take (x.length - 1000)).map (fun v => -v) := by
      rw [List.length_map, List.map_take]
    have hne : ¬ (x.take (x.length - 1000)).map (fun v => -v) = [] := by
      simpa using hw
    have hnot : ¬ |maxQ ((x.take (x.length - 1000)).map (fun v => -v))| >
        |minQ ((x.take (x.length - 1000)).map (fun v => -v))| := by
      rw [maxQ_map_neg, minQ_map_neg, abs_neg, abs_neg]
      exact fun hcon => absurd hflip (lt_asymm hcon)
    simp only [normalizeExternal, hwy]
    rw [if_neg hne, if_neg hnot]
  · subst hy
    simp only [normalizeExternal]
    rw [if_neg hw, if_neg hflip]

/-! ### Lemmas on the external detector -/

/-- A successful external scan yields a qualifying index inside the scanned
range (in particular never one of the last two samples). -/
theorem externalArtifactIdx_eq_some {data : List ℚ} {sf s q : ℕ}
    (h : externalArtifactIdx data sf s = some q) :
    ∃ d, normalizeExternal data = some d ∧ s ≤ q ∧ q + 2 < data.length ∧
      externalCondD d sf q = true := by
  rcases hd : normalizeExternal data with _ | d
  · rw [externalArtifactIdx.eq_def, hd] at h
    exact absurd h (by simp)
  · rw [externalArtifactIdx.eq_def, hd] at h
    simp only [] at h
    split at h
    · simp at h
    · have hmem := List.mem_range'_1.mp (List.mem_of_find?_eq_some h)
      have hcond := List.find?_some h
      have hlen : d.length = data.length := normalizeExternal_length hd
      exact ⟨d, rfl, hmem.1, by omega, hcond⟩

/-- The external scan returns the least qualifying index at or after the
start index. -/
theorem externalArtifactIdx_least {data d : List ℚ} {sf s q : ℕ}
    (hd : normalizeExternal data = some d)
    (hwin : ¬ d.take (2 * sf) = [])
    (hsq : s ≤ q) (hqlen : q + 2 < d.length)
    (hq : externalCondD d sf q = true)
    (hmin : ∀ p, p < q → s ≤ p → externalCondD d sf p = false) :
    externalArtifactIdx data sf s = some q := by
  rw [externalArtifactIdx.eq_def, hd]
  simp only []
  rw [if_neg hwin]
  exact find?_range'_least _ _ _ _ hsq (by omega) hq hmin

/-! ### Lemmas on the threshold branch -/

/-- A first-crossing index is inside the array. -/
theorem firstIdxGt_lt_length {l : List ℚ} {c : ℚ} {n : ℕ}
    (h : firstIdxGt l c = some n) : n < l.length := by
  unfold firstIdxGt at h
  have hmem := List.mem_filter.mp (mem_of_head?_eq_some h)
  exact List.mem_range.mp hmem.1

/-- A last-below-percentile index is inside the array. -/
theorem lastIdxLe_lt_length {l : List ℚ} {c : ℚ} {n : ℕ}
    (h : lastIdxLe l c = some n) : n < l.length := by
  unfold lastIdxLe at h
  have hmem := List.mem_filter.mp (mem_of_getLast?_eq_some h)
  exact List.mem_range.mp hmem.1

/-- When some entry is at most the cutoff, the last-below search succeeds. -/
theorem lastIdxLe_isSome {l : List ℚ} {c : ℚ}
    (hex : ∃ j, j < l.length ∧ l.getD j 0 ≤ c) : ∃ i, lastIdxLe l c = some i := by
  obtain ⟨j, hj, hle⟩ := hex
  have hmem : j ∈ (List.range l.length).filter (fun i => decide (l.getD i 0 ≤ c)) := by
    rw [List.mem_filter]
    exact ⟨List.mem_range.mpr hj, by simpa using hle⟩
  have hne : (List.range l.length).filter (fun i => decide (l.getD i 0 ≤ c)) ≠ [] := by
    intro hcon
    rw [hcon] at hmem
    simp at hmem
  exact ⟨_, List.getLast?_eq_getLast _ hne⟩

/-- The threshold-branch result precedes the first crossing index. -/
theorem threshStimIdx_lt_over {data : List ℚ} {sf i over : ℕ}
    (h1 : threshStimIdx data sf = some i)
    (h2 : firstIdxGt (data.map (fun v => |v|)) (ptpQ (data.take (2 * sf))) = some over) :
    i < over := by
  simp only [threshStimIdx, h2] at h1
  split at h1
  · simp at h1
  · split at h1
    · simp at h1
    · have hlt := lastIdxLe_lt_length h1
      rw [List.length_take, List.length_map] at hlt
      exact (lt_min_iff.mp hlt).1

/-- The threshold-branch result is strictly inside the signal and never its
last sample. -/
theorem threshStimIdx_bound {data : List ℚ} {sf i : ℕ}
    (h : threshStimIdx data sf = some i) : i + 1 < data.length := by
  rcases h2 : firstIdxGt (data.map (fun v => |v|)) (ptpQ (data.take (2 * sf))) with _ | over
  · simp only [threshStimIdx, h2] at h
    split at h
    · simp at h
    · simp at h
  · have hi := threshStimIdx_lt_over h h2
    have hover := firstIdxGt_lt_length h2
    rw [List.length_map] at hover
    omega

/-! ### Lemmas on the peak search -/

/-- The plateau scan never moves left. -/
theorem findAhead_ge (x : List ℚ) (i : ℕ) :
    ∀ fuel j, j ≤ findAhead x i fuel j := by
  intro fuel
  induction fuel with
  | zero => intro j; simp [findAhead]
  | succ m ih =>
    intro j
    rw [findAhead]
    split
    · exact Nat.le_trans (Nat.le_succ j) (ih (j + 1))
    · exact Nat.le_refl j

/-- The plateau scan stays left of the final index. -/
theorem findAhead_le (x : List ℚ) (i : ℕ) :
    ∀ fuel j, j + 1 ≤ x.length → findAhead x i fuel j + 1 ≤ x.length := by
  intro fuel
  induction fuel with
  | zero => intro j hj; simpa [findAhead] using hj
  | succ m ih =>
    intro j hj
    rw [findAhead]
    split
    next hc => exact ih (j + 1) hc.1
    next hc => exact hj

/-- Every local-maximum midpoint is an interior index. -/
theorem mem_localMaximaAux (x : List ℚ) :
    ∀ fuel i m, 1 ≤ i → m ∈ localMaximaAux x fuel i → 1 ≤ m ∧ m + 1 < x.length := by
  intro fuel
  induction fuel with
  | zero => intro i m _ hm; simp [localMaximaAux] at hm
  | succ f ih =>
    intro i m hi hm
    rw [localMaximaAux] at hm
    split at hm
    next hguard =>
      split at hm
      next hrise =>
        simp only [] at hm
        split at hm
        next hfall =>
          rcases List.mem_cons.mp hm with hm | hm
          · have hge := findAhead_ge x i x.length (i + 1)
            have hle := findAhead_le x i x.length (i + 1) hguard
            subst hm
            constructor
            · have : i ≤ (i + (findAhead x i x.length (i + 1) - 1)) / 2 := by omega
              omega
            · omega
          · exact ih _ m (by omega) hm
        next hfall => exact ih _ m (by omega) hm
      next hrise => exact ih _ m (by omega) hm
    next hguard => simp at hm

/-- Every reported local maximum is an interior index: at least 1, at most
`length - 2`. -/
theorem mem_localMaxima {x : List ℚ} {m : ℕ} (hm : m ∈ localMaxima x) :
    1 ≤ m ∧ m + 1 < x.length := by
  exact mem_localMaximaAux x x.length 1 m (Nat.le_refl 1) hm

/-- The distance filter only selects among the given peak positions. -/
theorem mem_selByDist {peaks : List ℕ} {heights : List ℚ} {dist : ℕ} {j : ℕ}
    (h : j ∈ selByDist peaks heights dist) : j ∈ peaks := by
  simp only [selByDist] at h
  obtain ⟨pb, hpb, hj⟩ := List.mem_filterMap.mp h
  have hmem : pb.1 ∈ peaks := (List.of_mem_zip hpb).1
  by_cases hb : pb.2 = true
  · rw [if_pos hb] at hj
    rwa [← Option.some.inj hj]
  · rw [if_neg hb] at hj
    exact absurd hj (by simp)

/-- A `find_peaks` result is an interior local maximum of its input. -/
theorem mem_find_peaks {x : List ℚ} {height : ℚ} {dist : ℕ} {j : ℕ}
    (h : j ∈ find_peaks x height dist) : 1 ≤ j ∧ j + 1 < x.length := by
  simp only [find_peaks] at h
  have h1 := mem_selByDist h
  have h2 := (List.mem_filter.mp h1).1
  exact mem_localMaxima h2

/-- The head of a compress over a keep-mask is one of the zipped values. -/
theorem mem_of_filterMap_zip {stim : List ℕ} {sel : List Bool} {s : ℕ} {rest : List ℕ}
    (heq : (stim.zip sel).filterMap (fun ib => if ib.2 = true then some ib.1 else none)
      = s :: rest) : s ∈ stim := by
  have hmem : s ∈ (stim.zip sel).filterMap
      (fun ib => if ib.2 = true then some ib.1 else none) := by
    rw [heq]
    exact List.mem_cons_self _ _
  obtain ⟨ib, hib, hs⟩ := List.mem_filterMap.mp hmem
  have hin : ib.1 ∈ stim := (List.of_mem_zip hib).1
  by_cases hb : ib.2 = true
  · rw [if_pos hb] at hs
    rwa [← Option.some.inj hs]
  · rw [if_neg hb] at hs
    exact absurd hs (by simp)

/-- The consistency filter only returns one of its candidate indices. -/
theorem consistencyFilter_mem {data : List ℚ} {inv : Bool} {stim_idx : List ℕ} {s : ℕ}
    (h : consistencyFilter data inv stim_idx = some s) : s ∈ stim_idx := by
  simp only [consistencyFilter] at h
  split at h
  · exact absurd h (by simp)
  · split at h
    · exact absurd h (by simp)
    next s1 tail1 heq =>
      rw [← Option.some.inj h]
      exact mem_of_filterMap_zip heq

/-- The raw response has one entry per offset `0 … n - k - 1`. -/
theorem rawRes_length (ker data : List ℚ) :
    (rawRes ker data).length = data.length - ker.length := by
  simp [rawRes]

/-- Each raw-response entry is the dot product of the kernel with the
equal-length signal window at its offset. -/
theorem rawRes_getD (ker data : List ℚ) (i : ℕ)
    (hi : i < data.length - ker.length) :
    (rawRes ker data).getD i 0 = dotQ ker ((data.drop i).take ker.length) := by
  simp only [rawRes, List.getD_eq_getElem?_getD, List.getElem?_map,
    List.getElem?_range hi]
  rfl

/-- The normalized response has one entry per offset `0 … n - k - 1`. -/
theorem normRes_length (ker data : List ℚ) :
    (normRes ker data).length = data.length - ker.length := by
  simp [normRes, rawRes]

/-- A successful kernel-branch detection returns an interior peak index of
the response: at least 1, at most `n - k - 2`. -/
theorem lfpKernelIdx_bound {data ker : List ℚ} {sf i : ℕ}
    (h : lfpKernelIdx data sf ker = some i) :
    1 ≤ i ∧ i + 1 < data.length - ker.length := by
  simp only [lfpKernelIdx] at h
  split at h
  · exact absurd h (by simp)
  · split at h
    · exact absurd h (by simp)
    · rcases hn : find_peaks ((normRes ker data).map (fun v => -v))
          (-(minQ (normRes ker data) * (3/10))) sf with _ | ⟨n0, nrest⟩ <;>
        rw [hn] at h
      · exact absurd h (by simp)
      · rcases hp : find_peaks (normRes ker data)
            (maxQ (normRes ker data) * (3/10)) sf with _ | ⟨p0, prest⟩ <;>
          rw [hp] at h
        · exact absurd h (by simp)
        · simp only [] at h
          rcases hf : lfpInversionFlag (normRes ker data) p0 n0 with _ | inv <;>
            rw [hf] at h
          · exact absurd h (by simp)
          · simp only [] at h
            have hs := consistencyFilter_mem h
            by_cases hinv : inv = true
            · rw [if_pos hinv] at hs
              rw [← hn] at hs
              have hb := mem_find_peaks hs
              rw [List.length_map, normRes_length] at hb
              exact hb
            · rw [if_neg hinv] at hs
              rw [← hp] at hs
              have hb := mem_find_peaks hs
              rw [normRes_length] at hb
              exact hb

/-! ### Lemmas on the width walks and the inversion decision -/

/-- A completed positive-width walk accessed only in-bounds indices and
stopped at an in-bounds index where the 30%-condition fails. -/
theorem walkAbove_eq_some {res : List ℚ} {c : ℚ} :
    ∀ {fuel i w : ℕ}, walkAbove res c fuel i = some w →
      (∀ j, j ≤ w → i + j < res.length) ∧ ¬ c < res.getD (i + w) 0 := by
  intro fuel
  induction fuel with
  | zero => intro i w h; simp [walkAbove] at h
  | succ f ih =>
    intro i w h
    rw [walkAbove] at h
    split at h
    next hlen =>
      split at h
      next hc =>
        rcases hw : walkAbove res c f (i + 1) with _ | w1 <;> rw [hw] at h
        · exact absurd h (by simp)
        · have hww : w1 + 1 = w := by simpa using h
          obtain ⟨hin, hstop⟩ := ih hw
          constructor
          · intro j hj
            rcases Nat.eq_zero_or_pos j with hj0 | hj0
            · omega
            · have := hin (j - 1) (by omega)
              omega
          · have harr : i + w = i + 1 + w1 := by omega
            rw [harr]
            exact hstop
      next hc =>
        have hw0 : w = 0 := by simpa using h.symm
        subst hw0
        exact ⟨fun j hj => by omega, by simpa using hc⟩
    next hlen => exact absurd h (by simp)

/-- A completed negative-width walk accessed only in-bounds indices and
stopped at an in-bounds index where the 30%-condition fails. -/
theorem walkBelow_eq_some {res : List ℚ} {c : ℚ} :
    ∀ {fuel i w : ℕ}, walkBelow res c fuel i = some w →
      (∀ j, j ≤ w → i + j < res.length) ∧ ¬ res.getD (i + w) 0 < c := by
  intro fuel
  induction fuel with
  | zero => intro i w h; simp [walkBelow] at h
  | succ f ih =>
    intro i w h
    rw [walkBelow] at h
    split at h
    next hlen =>
      split at h
      next hc =>
        rcases hw : walkBelow res c f (i + 1) with _ | w1 <;> rw [hw] at h
        · exact absurd h (by simp)
        · have hww : w1 + 1 = w := by simpa using h
          obtain ⟨hin, hstop⟩ := ih hw
          constructor
          · intro j hj
            rcases Nat.eq_zero_or_pos j with hj0 | hj0
            · omega
            · have := hin (j - 1) (by omega)
              omega
          · have harr : i + w = i + 1 + w1 := by omega
            rw [harr]
            exact hstop
      next hc =>
        have hw0 : w = 0 := by simpa using h.symm
        subst hw0
        exact ⟨fun j hj => by omega, by simpa using hc⟩
    next hlen => exact absurd h (by simp)

/-- Characterization of the inversion decision: inverted exactly when the
first negative peak precedes the first positive peak, except that a completed
narrow-case width measurement with `width_pos > 2 * width_neg` revokes it. -/
theorem lfpInversionFlag_spec {res : List ℚ} {p0 n0 : ℕ} {b : Bool}
    (h : lfpInversionFlag res p0 n0 = some b) :
    b = true ↔ (n0 < p0 ∧ ¬ (p0 - n0 < 50 ∧ ∃ wp wn,
      walkAbove res (maxQ res * (3/10)) (res.length + 1) p0 = some wp ∧
      walkBelow res (minQ res * (3/10)) (res.length + 1) n0 = some wn ∧
      2 * wn < wp)) := by
  unfold lfpInversionFlag at h
  split at h
  next hnp =>
    split at h
    next h50 =>
      rcases ha : walkAbove res (maxQ res * (3/10)) (res.length + 1) p0 with _ | wp <;>
        rw [ha] at h
      · exact absurd h (by simp)
      · rcases hb : walkBelow res (minQ res * (3/10)) (res.length + 1) n0 with _ | wn <;>
          rw [hb] at h
        · exact absurd h (by simp)
        · simp only [] at h
          by_cases hlt : 2 * wn < wp
          · rw [if_pos hlt] at h
            rw [← Option.some.inj h]
            simp only [Bool.false_eq_true, false_iff]
            intro hcon
            exact hcon.2 ⟨h50, wp, wn, rfl, rfl, hlt⟩
          · rw [if_neg hlt] at h
            rw [← Option.some.inj h]
            simp only [true_iff]
            refine ⟨hnp, fun hcon => ?_⟩
            obtain ⟨_, wp1, wn1, ha1, hb1, hlt1⟩ := hcon
            have e1 := Option.some.inj ha1
            have e2 := Option.some.inj hb1
            exact hlt (by omega)
    next h50 =>
      rw [← Option.some.inj h]
      simp only [true_iff]
      exact ⟨hnp, fun hcon => h50 hcon.1⟩
  next hnp =>
    rw [← Option.some.inj h]
    simp only [Bool.false_eq_true, false_iff]
    exact fun hcon => hnp hcon.1

/-! ### Lemmas on the timeshift check -/

/-- The drift record: exact computation, persistence of both values keyed by
the session, and the advisory policy. -/
theorem check_timeshift_spec (sid : String) (tl te : ℚ) (store : ParamStore) :
    (check_timeshift sid tl te store).1.drift_ms = (te - tl) * 1000 ∧
    (sid, "TIMESHIFT", (te - tl) * 1000) ∈ (check_timeshift sid tl te store).2 ∧
    (sid, "REC DURATION FOR TIMESHIFT", te) ∈ (check_timeshift sid tl te store).2 ∧
    ((check_timeshift sid tl te store).1.advisory = true ↔ 100 < |(te - tl) * 1000|) := by
  refine ⟨rfl, ?_, ?_, ?_⟩
  · simp [check_timeshift, updateAndSaveParams]
  · simp [check_timeshift, updateAndSaveParams]
  · simp [check_timeshift]

/-- The all-zero signal never satisfies the scan condition. -/
theorem externalCondD_zeroExternal (q : ℕ) : externalCondD zeroExternal 1 q = false := by
  unfold externalCondD
  rw [zeroExternal_getD q, zeroExternal_getD (q + 1)]
  simp

/-- Every sample of `cexExternal` strictly between the two-sample head and the
trailing pulse reads as zero. -/
theorem cexExternal_getD_mid (i : ℕ) (h2 : 2 ≤ i) (h3 : i ≤ 1001) :
    cexExternal.getD i 0 = 0 := by
  have hshape : cexExternal
      = [(-4 : ℚ), -2] ++ (List.replicate 1000 0 ++ [-4, 0, 5]) := rfl
  have hlen : ([(-4 : ℚ), -2]).length = 2 := rfl
  rw [List.getD_eq_getElem?_getD, hshape,
    List.getElem?_append_right (by rw [hlen]; omega),
    List.getElem?_append_left (by rw [hlen, List.length_replicate]; omega),
    List.getElem?_replicate]
  rw [if_pos (by rw [hlen]; omega)]
  rfl

/-- No index of `cexExternal` between the head and the trailing pulse
satisfies the scan condition: its sample 0 is above the threshold -3. -/
theorem externalCondD_cex_mid (p : ℕ) (h2 : 2 ≤ p) (h3 : p ≤ 1001) :
    externalCondD cexExternal 1 p = false := by
  have hA : ¬ (cexExternal.getD p 0 ≤ -(3/2) * ptpQ (cexExternal.take (2 * 1))) := by
    rw [cexExternal_getD_mid p h2 h3,
      show cexExternal.take (2 * 1) = [-4, -2] from rfl]
    norm_num [ptpQ, maxQ, minQ, max_def, min_def]
  unfold externalCondD
  rw [decide_eq_false hA]
  simp

/-! ### Claim theorems -/

/-- C1: for the intracranial kernel methods, when both peak lists of the
normalized matched-filter response are non-empty and the inversion decision
completes, the channel is marked inverted exactly when the first
negative-response peak precedes the first positive-response peak, except that
when the two first peaks are within 50 samples of each other and the positive
peak's half-height width (walking while the response stays beyond 30% of its
extreme) exceeds twice the negative peak's width, the inversion is revoked. -/
theorem C1_inversion_decision {data ker : List ℚ} {sf p0 n0 : ℕ}
    {prest nrest : List ℕ} {b : Bool}
    (hker : ker = kernel1 ∨ ker = kernel2)
    (hpos : find_peaks (normRes ker data) (maxQ (normRes ker data) * (3/10)) sf
      = p0 :: prest)
    (hneg : find_peaks ((normRes ker data).map (fun v => -v))
      (-(minQ (normRes ker data) * (3/10))) sf = n0 :: nrest)
    (hflag : lfpInversionFlag (normRes ker data) p0 n0 = some b) :
    b = true ↔ (n0 < p0 ∧ ¬ (p0 - n0 < 50 ∧ ∃ wp wn,
      walkAbove (normRes ker data) (maxQ (normRes ker data) * (3/10))
        ((normRes ker data).length + 1) p0 = some wp ∧
      walkBelow (normRes ker data) (minQ (normRes ker data) * (3/10))
        ((normRes ker data).length + 1) n0 = some wn ∧
      2 * wn < wp)) :=
  lfpInversionFlag_spec hflag

/-- C2 (amended): for a start index of at least 1 (so that the scan never
compares against Python's wrapped-around `data[-1]`), if `q` is the least
index at or after the start satisfying the threshold-and-local-minimum
condition on the polarity-normalized signal, with a prior and a next sample,
then `find_external_sync_artifact` returns `q / sf`. -/
theorem C2_external_first_minimum {data d : List ℚ} {sf s q : ℕ}
    (hd : normalizeExternal data = some d)
    (hwin : d.take (2 * sf) ≠ [])
    (hs : 1 ≤ s) (hsq : s ≤ q) (hqlen : q + 2 < d.length)
    (hq : externalCondD d sf q = true)
    (hmin : ∀ p, p < q → s ≤ p → externalCondD d sf p = false) :
    find_external_sync_artifact data sf s = some ((q : ℚ) / (sf : ℚ)) := by
  rw [find_external_sync_artifact, externalArtifactIdx_least hd hwin hsq hqlen hq hmin]
  rfl

/-- C5 (amended): for both kernels the matched-filter response contains one
inner product per offset `0 … n-k-1` — length `n - k`, not `n - k + 1`: the
source loop `np.arange(0, len(data) - len(ker))` omits the final valid
offset — and the normalized response divides every entry by the response
maximum; kernel1 has 2 taps and kernel2 has 23. -/
theorem C5_response_shape :
    (∀ ker data : List ℚ, (rawRes ker data).length = data.length - ker.length) ∧
    (∀ (ker data : List ℚ) (i : ℕ), i < data.length - ker.length →
      (rawRes ker data).getD i 0 = dotQ ker ((data.drop i).take ker.length)) ∧
    (∀ ker data : List ℚ,
      normRes ker data = (rawRes ker data).map (fun v => v / maxQ (rawRes ker data))) ∧
    kernel1.length = 2 ∧ kernel2.length = 23 :=
  ⟨rawRes_length, fun ker data i hi => rawRes_getD ker data i hi,
    fun _ _ => rfl, rfl, by rfl⟩

/-- C6: whenever the threshold method succeeds, the returned index is
strictly less than the first index at which the absolute signal exceeds the
baseline threshold. -/
theorem C6_thresh_precedes_crossing {data : List ℚ} {sf i over : ℕ}
    (hsucc : threshStimIdx data sf = some i)
    (hover : firstIdxGt (data.map (fun v => |v|)) (ptpQ (data.take (2 * sf)))
      = some over) :
    i < over :=
  threshStimIdx_lt_over hsucc hover

/-- C8: polarity normalization is idempotent — the output of a successful
normalization (correctly-signed by construction) is left unchanged by a
second application, so normalizing twice yields the same sign as once. -/
theorem C8_polarity_idempotent {x y : List ℚ} (h : normalizeExternal x = some y) :
    normalizeExternal y = some y :=
  normalizeExternal_idem h

/-- C9 (amended): every successful detection returns an index strictly within
bounds; the external scan and the kernel methods never return one of the last
two samples, while the threshold method never returns the last sample but can
return the second-to-last (see the counterexample). -/
theorem C9_onset_index_bounds :
    (∀ (data : List ℚ) (sf s q : ℕ), externalArtifactIdx data sf s = some q →
      q + 2 < data.length) ∧
    (∀ (data : List ℚ) (sf i : ℕ), threshStimIdx data sf = some i →
      i + 1 < data.length) ∧
    (∀ (data ker : List ℚ) (sf i : ℕ), 2 ≤ ker.length →
      lfpKernelIdx data sf ker = some i → 1 ≤ i ∧ i + 3 < data.length) := by
  refine ⟨?_, ?_, ?_⟩
  · intro data sf s q h
    obtain ⟨d, _, _, hb, _⟩ := externalArtifactIdx_eq_some h
    exact hb
  · intro data sf i h
    exact threshStimIdx_bound h
  · intro data ker sf i hk h
    obtain ⟨h1, h2⟩ := lfpKernelIdx_bound h
    exact ⟨h1, by omega⟩

/-- C10 (amended): a width-measurement loop that completes with a width has
accessed only in-bounds indices of the response and stopped at an in-bounds
index where the 30%-condition fails; unconditional in-bounds termination does
not hold — the loop can run off the end of the response (see the
counterexample), where the source raises IndexError. -/
theorem C10_width_walk_safety :
    (∀ (res : List ℚ) (c : ℚ) (fuel i w : ℕ), walkAbove res c fuel i = some w →
      (∀ j, j ≤ w → i + j < res.length) ∧ ¬ c < res.getD (i + w) 0) ∧
    (∀ (res : List ℚ) (c : ℚ) (fuel i w : ℕ), walkBelow res c fuel i = some w →
      (∀ j, j ≤ w → i + j < res.length) ∧ ¬ res.getD (i + w) 0 < c) :=
  ⟨fun _ _ _ _ _ h => walkAbove_eq_some h, fun _ _ _ _ _ h => walkBelow_eq_some h⟩

/-! ### Concrete evaluations

The kernel evaluates rational arithmetic (its `Nat.gcd` is accelerated), but
the core `Rat` operations are elaborator-irreducible; within this section
they are restored to their default reducibility so that `decide` can evaluate
the embedded detectors on concrete signals. -/

section ConcreteEvaluations

set_option allowUnsafeReducibility true in
attribute [semireducible] Rat.add Rat.sub Rat.mul Rat.inv Rat.floor Rat.ceil

set_option maxRecDepth 100000

/-- C3: on a signal with no qualifying sample the scan completes without
binding a result — the source returns the unbound `art_time_BIP`
(UnboundLocalError), embedded as `none`; the spec requires an explicit
NotFound failure instead. -/
theorem C3_unbound_scan_result : find_external_sync_artifact zeroExternal 1 0 = none := by
  have hd : normalizeExternal zeroExternal = some zeroExternal := by decide
  have hnone : (List.range' 0 (zeroExternal.length - 2 - 0)).find?
      (externalCondD zeroExternal 1) = none :=
    List.find?_eq_none.mpr (fun q _ => by simp [externalCondD_zeroExternal q])
  unfold find_external_sync_artifact
  rw [externalArtifactIdx.eq_def, hd]
  simp only []
  rw [if_neg (by decide), hnone]
  rfl

/-- C4: on a signal whose kernel-1 response is strictly increasing both peak
lists are empty; the source's unguarded `neg_idx[0]` raises IndexError there
(embedded as `none`); the spec requires an explicit NotFound failure. -/
theorem C4_empty_peak_list : find_LFP_sync_artifact noPeakLFP 1 "1" = none := by
  decide

/-- C7: the timeshift check computes `drift_ms = (t_external - t_lfp) * 1000`
exactly, persists the drift and the reference duration keyed by the session,
raises the advisory exactly when `|drift_ms| > 100`, and always produces the
record; concretely `t_lfp = 10.000, t_external = 10.080` gives `80.0` with no
advisory and `t_external = 10.150` gives `150.0` with the advisory. -/
theorem C7_timeshift_record :
    (∀ (sid : String) (tl te : ℚ) (store : ParamStore),
      (check_timeshift sid tl te store).1.drift_ms = (te - tl) * 1000 ∧
      (sid, "TIMESHIFT", (te - tl) * 1000) ∈ (check_timeshift sid tl te store).2 ∧
      (sid, "REC DURATION FOR TIMESHIFT", te) ∈ (check_timeshift sid tl te store).2 ∧
      ((check_timeshift sid tl te store).1.advisory = true ↔ 100 < |(te - tl) * 1000|)) ∧
    (check_timeshift "s" 10 (1008/100) []).1.drift_ms = 80 ∧
    (check_timeshift "s" 10 (1008/100) []).1.advisory = false ∧
    (check_timeshift "s" 10 (1015/100) []).1.drift_ms = 150 ∧
    (check_timeshift "s" 10 (1015/100) []).1.advisory = true :=
  ⟨check_timeshift_spec, by decide, by decide, by decide, by decide⟩

/-- Witness for C1: on `cleanLFP` with kernel 1 the peak lists are `[1]` and
`[3]`, the decision completes with `false`, and the characterization holds at
those concrete values. -/
theorem C1_witness :
    find_peaks (normRes kernel1 cleanLFP) (maxQ (normRes kernel1 cleanLFP) * (3/10)) 1
      = [1] ∧
    find_peaks ((normRes kernel1 cleanLFP).map (fun v => -v))
      (-(minQ (normRes kernel1 cleanLFP) * (3/10))) 1 = [3] ∧
    lfpInversionFlag (normRes kernel1 cleanLFP) 1 3 = some false ∧
    (false = true ↔ (3 < 1 ∧ ¬ (1 - 3 < 50 ∧ ∃ wp wn,
      walkAbove (normRes kernel1 cleanLFP) (maxQ (normRes kernel1 cleanLFP) * (3/10))
        ((normRes kernel1 cleanLFP).length + 1) 1 = some wp ∧
      walkBelow (normRes kernel1 cleanLFP) (minQ (normRes kernel1 cleanLFP) * (3/10))
        ((normRes kernel1 cleanLFP).length + 1) 3 = some wn ∧
      2 * wn < wp))) :=
  ⟨by decide, by decide, by decide,
    @C1_inversion_decision cleanLFP kernel1 1 1 3 [] [] false (Or.inl rfl)
      (by decide) (by decide) (by decide)⟩

/-- Witness for C2 (amended): on `wExternal` with start index 1 the least
qualifying index is 3 and the detector returns `3 / 1`. -/
theorem C2_witness :
    normalizeExternal wExternal = some wExternal ∧
    wExternal.take (2 * 1) ≠ [] ∧
    (1 ≤ 1 ∧ 1 ≤ 3 ∧ 3 + 2 < wExternal.length) ∧
    externalCondD wExternal 1 3 = true ∧
    find_external_sync_artifact wExternal 1 1 = some ((3 : ℚ) / (1 : ℚ)) :=
  ⟨by decide, by decide, ⟨by decide, by decide, by decide⟩, by decide,
    @C2_external_first_minimum wExternal wExternal 1 1 3 (by decide) (by decide)
      (by decide) (by decide) (by decide) (by decide) (by decide)⟩

/-- Counterexample for C2 as stated: on `cexExternal` with start index 0 the
premise holds — index 1002 qualifies, with prior and next samples, and is the
only qualifying index at or after 1 — yet the source compares `data[0]`
against the wrapped-around `data[-1]` and returns index 0, which, having no
prior sample, equals no qualifying `q / sf`. -/
theorem C2_counterexample :
    find_external_sync_artifact cexExternal 1 0 = some 0 ∧
    normalizeExternal cexExternal = some cexExternal ∧
    (1 ≤ 1002 ∧ 1002 + 2 < cexExternal.length ∧
      externalCondD cexExternal 1 1002 = true) ∧
    (∀ p, p < 1002 → 1 ≤ p → externalCondD cexExternal 1 p = false) ∧
    (∀ q : ℕ, 1 ≤ q → (0 : ℚ) ≠ (q : ℚ) / 1) := by
  refine ⟨by decide, by decide, ⟨by decide, by decide, by decide⟩, ?_, ?_⟩
  · intro p hlt hge
    rcases Nat.lt_or_ge p 2 with hsmall | hbig
    · have hp1 : p = 1 := by omega
      subst hp1
      decide
    · exact externalCondD_cex_mid p hbig (by omega)
  · intro q hq hcon
    rw [div_one] at hcon
    have h0 : (0 : ℚ) < (q : ℚ) := by exact_mod_cast hq
    exact (ne_of_lt h0) hcon

/-- Witness for C5 (amended): the first response entry of kernel 1 on
`noPeakLFP` is the inner product with the first window. -/
theorem C5_witness :
    0 < noPeakLFP.length - kernel1.length ∧
    (rawRes kernel1 noPeakLFP).getD 0 0
      = dotQ kernel1 ((noPeakLFP.drop 0).take kernel1.length) :=
  ⟨by decide, C5_response_shape.2.1 kernel1 noPeakLFP 0 (by decide)⟩

/-- Counterexample for C5 as stated: on a 4-sample signal with the 2-tap
kernel the response has 2 entries, not `4 - 2 + 1 = 3`. -/
theorem C5_counterexample :
    (rawRes kernel1 lateThreshLFP).length = 2 ∧
    lateThreshLFP.length = 4 ∧ kernel1.length = 2 ∧ (2 : ℕ) ≠ 4 - 2 + 1 :=
  ⟨by decide, by decide, by decide, by decide⟩

/-- Witness for C6: on `[0, 0, 5]` the threshold method returns index 1,
strictly before the crossing at index 2. -/
theorem C6_witness :
    threshStimIdx [(0 : ℚ), 0, 5] 1 = some 1 ∧
    firstIdxGt ([(0 : ℚ), 0, 5].map (fun v => |v|))
      (ptpQ ([(0 : ℚ), 0, 5].take (2 * 1))) = some 2 ∧
    1 < 2 :=
  ⟨by decide, by decide,
    @C6_thresh_precedes_crossing [(0 : ℚ), 0, 5] 1 1 2 (by decide) (by decide)⟩

/-- Witness for C8: the normalization of the reversed-polarity `wFlip` is
`wFlipN`, and normalizing `wFlipN` again leaves it unchanged. -/
theorem C8_witness : normalizeExternal wFlipN = some wFlipN :=
  C8_polarity_idempotent (show normalizeExternal wFlip = some wFlipN by decide)

/-- Witness for C9 (amended): concrete successful runs of all three
detectors, with the index bounds evaluated. -/
theorem C9_witness :
    (externalArtifactIdx wExternal 1 1 = some 3 ∧ 3 + 2 < wExternal.length) ∧
    (threshStimIdx [(0 : ℚ), 0, 5] 1 = some 1 ∧ 1 + 1 < [(0 : ℚ), 0, 5].length) ∧
    (2 ≤ kernel1.length ∧ lfpKernelIdx cleanLFP 1 kernel1 = some 1 ∧
      (1 ≤ 1 ∧ 1 + 3 < cleanLFP.length)) :=
  ⟨⟨by decide, C9_onset_index_bounds.1 wExternal 1 1 3 (by decide)⟩,
   ⟨by decide, C9_onset_index_bounds.2.1 [(0 : ℚ), 0, 5] 1 1 (by decide)⟩,
   ⟨by decide, by decide,
     C9_onset_index_bounds.2.2 cleanLFP kernel1 1 1 (by decide) (by decide)⟩⟩

/-- Counterexample for C9 as stated: on `lateThreshLFP` (length 4) the
threshold method succeeds and returns index `2 = 4 - 2`, the second-to-last
sample. -/
theorem C9_counterexample :
    threshStimIdx lateThreshLFP 1 = some 2 ∧
    find_LFP_sync_artifact lateThreshLFP 1 "thresh" = some 2 ∧
    lateThreshLFP.length = 4 :=
  ⟨by decide, by decide, by decide⟩

/-- Witness for C10 (amended): a completed positive walk of width 1 and a
completed negative walk of width 1, with in-bounds stop indices. -/
theorem C10_witness :
    (walkAbove [(1 : ℚ), 0] (1/2) 3 0 = some 1 ∧ 0 + 1 < ([(1 : ℚ), 0]).length ∧
      ¬ (1/2 : ℚ) < ([(1 : ℚ), 0]).getD (0 + 1) 0) ∧
    (walkBelow [(-1 : ℚ), 0] (-1/2) 3 0 = some 1 ∧ 0 + 1 < ([(-1 : ℚ), 0]).length ∧
      ¬ ([(-1 : ℚ), 0]).getD (0 + 1) 0 < (-1/2 : ℚ)) :=
  ⟨⟨by decide,
      (C10_width_walk_safety.1 [(1 : ℚ), 0] (1/2) 3 0 1 (by decide)).1 1 (Nat.le_refl 1),
      (C10_width_walk_safety.1 [(1 : ℚ), 0] (1/2) 3 0 1 (by decide)).2⟩,
   ⟨by decide,
      (C10_width_walk_safety.2 [(-1 : ℚ), 0] (-1/2) 3 0 1 (by decide)).1 1 (Nat.le_refl 1),
      (C10_width_walk_safety.2 [(-1 : ℚ), 0] (-1/2) 3 0 1 (by decide)).2⟩⟩

/-- Counterexample for C10 as stated: on `walkOffLFP` with kernel 1 the
narrow-case override is triggered (first negative peak 1 before first
positive peak 2, within 50 samples) and the positive width walk runs off the
end of the response — the out-of-bounds branch is reachable and the whole
detection fails. -/
theorem C10_counterexample :
    find_peaks (normRes kernel1 walkOffLFP) (maxQ (normRes kernel1 walkOffLFP) * (3/10)) 1
      = [2] ∧
    find_peaks ((normRes kernel1 walkOffLFP).map (fun v => -v))
      (-(minQ (normRes kernel1 walkOffLFP) * (3/10))) 1 = [1] ∧
    (1 < 2 ∧ 2 - 1 < 50) ∧
    walkAbove (normRes kernel1 walkOffLFP) (maxQ (normRes kernel1 walkOffLFP) * (3/10))
      ((normRes kernel1 walkOffLFP).length + 1) 2 = none ∧
    lfpInversionFlag (normRes kernel1 walkOffLFP) 2 1 = none ∧
    lfpKernelIdx walkOffLFP 1 kernel1 = none :=
  ⟨by decide, by decide, ⟨by decide, by decide⟩, by decide, by decide, by decide⟩

end ConcreteEvaluations
